import Mathlib

/-!
Verification development for `RemoteBuildManager.ts` of the remote-builder
client (packages/electron-builder-lib/src/remoteBuilder/RemoteBuildManager.ts).

The TypeScript code is event/promise driven.  We embed it shallowly:

* decoded JSON values are modelled by `JsValue`, the platform serializer
  `JSON.stringify(v, null, 2)` by `jsStringify2`;
* each event handler of the source becomes a pure Lean function from its
  inputs to an explicit outcome or list of emitted actions, in the exact
  order the source performs them;
* the promise returned by `build()` (settle-once semantics, the `handled`
  flag, and the single `finally` that destroys the HTTP/2 session) becomes a
  small state machine `stepSession` over `SessionState`;
* the download completion barrier (`fileWritten`, `finishedStreamCount`)
  becomes `fileWrittenStep` / `runCompletions`;
* the URL escaping performed by `new URL("f:/id/file").pathname` is modelled
  byte-precisely (`encodeSegment`, WHATWG path percent-encode set, UTF-8).
-/

/-! ## JSON values (results of `JSON.parse`) -/

inductive JsValue where
  | null : JsValue
  | bool : Bool → JsValue
  | num : Int → JsValue
  | str : String → JsValue
  | arr : List JsValue → JsValue
  | obj : List (String × JsValue) → JsValue
deriving Repr

/-- Association-list lookup used for JS property access `v[key]`. -/
def lookupField : List (String × JsValue) → String → Option JsValue
  | [], _ => none
  | (k, x) :: rest, key => if k == key then some x else lookupField rest key

/-- JS property read `v.key`: `none` models `undefined` (missing property or
non-object receiver). -/
def jsGet (v : JsValue) (key : String) : Option JsValue :=
  match v with
  | .obj fs => lookupField fs key
  | _ => none

/-- JS test `v.key != null` (loose): both `undefined` and `null` fail it.
Returns the property value when it passes. -/
def jsGetNonNull (v : JsValue) (key : String) : Option JsValue :=
  match jsGet v key with
  | some .null => none
  | o => o

/-- JS test `key in v`: property present, even when its value is `null`. -/
def jsHas (v : JsValue) (key : String) : Bool :=
  (jsGet v key).isSome

/-! ## `JSON.stringify(v, null, 2)` -/

def hexDigitLower (n : Nat) : Char :=
  match n with
  | 0 => '0' | 1 => '1' | 2 => '2' | 3 => '3' | 4 => '4'
  | 5 => '5' | 6 => '6' | 7 => '7' | 8 => '8' | 9 => '9'
  | 10 => 'a' | 11 => 'b' | 12 => 'c' | 13 => 'd' | 14 => 'e'
  | _ => 'f'

/-- JSON string escaping as performed by `JSON.stringify`. -/
def jsEscapeChar (c : Char) : String :=
  if c = '"' then "\\\""
  else if c = '\\' then "\\\\"
  else if c.toNat == 10 then "\\n"
  else if c.toNat == 13 then "\\r"
  else if c.toNat == 9 then "\\t"
  else if c.toNat < 32 then
    "\\u00" ++ String.mk [hexDigitLower (c.toNat / 16), hexDigitLower (c.toNat % 16)]
  else String.mk [c]

def jsQuote (s : String) : String :=
  "\"" ++ String.join (s.data.map jsEscapeChar) ++ "\""

def spaces (n : Nat) : String :=
  String.mk (List.replicate n ' ')

def sepJoin (sep : String) : List String → String
  | [] => ""
  | [x] => x
  | x :: rest => x ++ sep ++ sepJoin sep rest

mutual

/-- `JSON.stringify(v, null, 2)` at nesting indentation `ind`. -/
def jsStringifyAt (ind : Nat) : JsValue → String
  | .null => "null"
  | .bool true => "true"
  | .bool false => "false"
  | .num n => toString n
  | .str s => jsQuote s
  | .arr [] => "[]"
  | .arr (x :: rest) =>
    "[\n" ++ sepJoin ",\n" (jsStringifyElems (ind + 2) (x :: rest)) ++
      "\n" ++ spaces ind ++ "]"
  | .obj [] => "\x7b\x7d"
  | .obj (f :: rest) =>
    "\x7b\n" ++ sepJoin ",\n" (jsStringifyMembers (ind + 2) (f :: rest)) ++
      "\n" ++ spaces ind ++ "\x7d"

/-- One rendered line per array element, at indentation `ind`. -/
def jsStringifyElems (ind : Nat) : List JsValue → List String
  | [] => []
  | x :: rest => (spaces ind ++ jsStringifyAt ind x) :: jsStringifyElems ind rest

/-- One rendered line per object member, at indentation `ind`. -/
def jsStringifyMembers (ind : Nat) : List (String × JsValue) → List String
  | [] => []
  | (k, v) :: rest =>
    (spaces ind ++ jsQuote k ++ ": " ++ jsStringifyAt ind v) :: jsStringifyMembers ind rest

end

/-- The serializer as called in the source: `JSON.stringify(result, null, 2)`. -/
def jsStringify2 (v : JsValue) : String :=
  jsStringifyAt 0 v

/-! ## Upload response handling (`upload`, source lines 108-144)

On `response`: a status other than OK (200) and BAD_REQUEST (400) rejects
with `HttpError(status)` at once.  Otherwise the body is accumulated; on
`end` an empty body decodes to `{}`, any other body through `JSON.parse`;
status 400 rejects with `HttpError(status, JSON.stringify(result, null, 2))`;
a missing/null `id` rejects with "Server didn't return id"; otherwise the
job id is handed (after the 2s grace delay) to `listenEvents`. -/

inductive UploadOutcome where
  | rejectHttp : Nat → Option String → UploadOutcome
  | rejectMissingId : UploadOutcome
  | listenForId : JsValue → UploadOutcome
deriving Repr

def HTTP_STATUS_OK : Nat := 200
def HTTP_STATUS_BAD_REQUEST : Nat := 400

/-- The decision taken once the upload response status and decoded body are
known, in source order. -/
def handleUploadResponse (status : Nat) (result : JsValue) : UploadOutcome :=
  if status ≠ HTTP_STATUS_OK ∧ status ≠ HTTP_STATUS_BAD_REQUEST then
    .rejectHttp status none
  else if status == HTTP_STATUS_BAD_REQUEST then
    .rejectHttp status (some (jsStringify2 result))
  else
    match jsGetNonNull result "id" with
    | none => .rejectMissingId
    | some id => .listenForId id

/-- `const result = data.length === 0 ? \x7b\x7d : JSON.parse(data)`; the
platform parser is passed in as `parse`. -/
def decodeUploadBody (data : String) (parse : String → JsValue) : JsValue :=
  if data.length == 0 then .obj [] else parse data

def handleUploadEnd (status : Nat) (data : String) (parse : String → JsValue) : UploadOutcome :=
  handleUploadResponse status (decodeUploadBody data parse)

/-- The server-supplied diagnostic of the C5 scenario, decoded. -/
def badConfigDiagnostic : JsValue :=
  .obj [("message", .str "bad config")]

/-- C5: a `bad request` (400) upload response whose body decodes to
`\x7b"message":"bad config"\x7d` rejects with the HTTP error that realizes the
spec's `ValidationError`, and its payload is exactly that JSON diagnostic as
re-serialized by `JSON.stringify(result, null, 2)`. -/
theorem upload_bad_request_rejects_with_serialized_diagnostic
    (parse : String → JsValue)
    (h : parse "\x7b\"message\":\"bad config\"\x7d" = badConfigDiagnostic) :
    handleUploadEnd HTTP_STATUS_BAD_REQUEST "\x7b\"message\":\"bad config\"\x7d" parse =
      .rejectHttp 400 (some (jsStringify2 badConfigDiagnostic)) ∧
    jsStringify2 badConfigDiagnostic = "\x7b\n  \"message\": \"bad config\"\n\x7d" := by
  constructor
  · have hd : decodeUploadBody "\x7b\"message\":\"bad config\"\x7d" parse =
        parse "\x7b\"message\":\"bad config\"\x7d" := rfl
    rw [handleUploadEnd, hd, h]
    rfl
  · rfl

/-- Witness for C5 at the concrete parser that returns the decoded
diagnostic. -/
theorem upload_bad_request_rejects_with_serialized_diagnostic_witness :
    handleUploadEnd HTTP_STATUS_BAD_REQUEST "\x7b\"message\":\"bad config\"\x7d"
        (fun _ => badConfigDiagnostic) =
      .rejectHttp 400 (some (jsStringify2 badConfigDiagnostic)) ∧
    jsStringify2 badConfigDiagnostic = "\x7b\n  \"message\": \"bad config\"\n\x7d" :=
  upload_bad_request_rejects_with_serialized_diagnostic (fun _ => badConfigDiagnostic) rfl

/-! ## Status-stream event classification (`listenEvents`, source lines 160-200)

Each JSON object decoded by the `JsonStreamParser` is classified in source
order: an `error` property (`!= null`) destroys the status stream and
*resolves* the surrounding promise with the whole event object; a `state`
property logs a progress notice (states `"added"` and `"started"` get fixed
messages, anything else is logged as-is); absence of a `files` property logs
a warning; otherwise the stream is destroyed and one download is launched
per artifact listed in `files`. -/

inductive EventAction where
  | destroyStream : EventAction
  | resolveJob : JsValue → EventAction
  | rejectJob : String → EventAction
  | logMsg : JsValue → EventAction
  | warnUnknown : JsValue → EventAction
  | logDownloading : JsValue → EventAction
  | startDownload : JsValue → EventAction
  | crash : EventAction
deriving Repr

/-- The `switch (data.state)` mapping to a human-readable notice. -/
def progressMessage (st : JsValue) : JsValue :=
  match st with
  | .str "added" => .str "Job added to build queue."
  | .str "started" => .str "Job started."
  | v => v

/-- `for (const artifact of this.files) \x7b log(...); this.downloadFile(...) \x7d` -/
def downloadActions : List JsValue → List EventAction
  | [] => []
  | a :: rest => .logDownloading a :: .startDownload a :: downloadActions rest

/-- The classification of one decoded status event, in source order. -/
def classifyEvent (data : JsValue) : List EventAction :=
  match jsGetNonNull data "error" with
  | some _ => [.destroyStream, .resolveJob data]
  | none =>
    match jsGetNonNull data "state" with
    | some st => [.logMsg (progressMessage st)]
    | none =>
      if jsHas data "files" then
        match jsGet data "files" with
        | some (.arr files) => .destroyStream :: downloadActions files
        | _ => [.destroyStream, .crash]
      else
        [.warnUnknown data]

def countRejectActions : List EventAction → Nat
  | [] => 0
  | .rejectJob _ :: rest => 1 + countRejectActions rest
  | _ :: rest => countRejectActions rest

def countResolveActions : List EventAction → Nat
  | [] => 0
  | .resolveJob _ :: rest => 1 + countResolveActions rest
  | _ :: rest => countResolveActions rest

def countStartDownloads : List EventAction → Nat
  | [] => 0
  | .startDownload _ :: rest => 1 + countStartDownloads rest
  | _ :: rest => countStartDownloads rest

/-- A decoded status event carrying an `error` field. -/
def errorEventSample : JsValue := .obj [("error", .str "build failed")]

/-- C3 counterexample: on a decoded event with an `error` field the handler
destroys the status stream but then *resolves* the job promise with the
error-carrying event object — it performs no rejection at all, contradicting
the claim that the job promise is rejected with that error. -/
theorem error_event_resolves_counterexample :
    classifyEvent errorEventSample =
      [.destroyStream, .resolveJob errorEventSample] ∧
    countRejectActions (classifyEvent errorEventSample) = 0 :=
  ⟨rfl, rfl⟩

/-- C3 amended: whenever a decoded status event has an `error` property that
is neither absent nor `null`, the handler destroys the status stream
immediately and resolves the job promise with the whole error-carrying event
object (the decoded Error event is terminal for the status stream, but it is
delivered to the caller as a resolution value, not as a rejection). -/
theorem error_event_destroys_stream_and_resolves
    (data e : JsValue) (h : jsGetNonNull data "error" = some e) :
    classifyEvent data = [.destroyStream, .resolveJob data] ∧
    countRejectActions (classifyEvent data) = 0 := by
  unfold classifyEvent
  rw [h]
  exact ⟨rfl, rfl⟩

/-- Witness for the amended C3 at the concrete error event. -/
theorem error_event_destroys_stream_and_resolves_witness :
    jsGetNonNull errorEventSample "error" = some (.str "build failed") ∧
    (classifyEvent errorEventSample =
        [.destroyStream, .resolveJob errorEventSample] ∧
      countRejectActions (classifyEvent errorEventSample) = 0) :=
  ⟨rfl, error_event_destroys_stream_and_resolves errorEventSample (.str "build failed") rfl⟩

/-! ## The download completion barrier (`fileWritten`, source lines 217-230)

`fileWritten` increments `finishedStreamCount`, dispatches the
artifact-created event, and resolves the job promise with `null` exactly
when `this.files != null && this.finishedStreamCount >= this.files.length`.
`this.files` is assigned the decoded manifest (length `n`) before any
download is launched. -/

structure DownloadState where
  filesLen : Option Nat
  finishedStreamCount : Nat
  dispatchCalls : Nat
  resolveCalls : Nat
deriving Repr, DecidableEq

def fileWrittenStep (s : DownloadState) : DownloadState :=
  let c := s.finishedStreamCount + 1
  { s with
    finishedStreamCount := c
    dispatchCalls := s.dispatchCalls + 1
    resolveCalls :=
      s.resolveCalls +
        match s.filesLen with
        | some n => if n ≤ c then 1 else 0
        | none => 0 }

def initialDownloadState (n : Nat) : DownloadState :=
  { filesLen := some n, finishedStreamCount := 0, dispatchCalls := 0, resolveCalls := 0 }

/-- The state after `k` artifact downloads have completed, the manifest
having length `n`. -/
def runCompletions (n : Nat) : Nat → DownloadState
  | 0 => initialDownloadState n
  | k + 1 => fileWrittenStep (runCompletions n k)

theorem fileWrittenStep_finished (s : DownloadState) :
    (fileWrittenStep s).finishedStreamCount = s.finishedStreamCount + 1 := rfl

theorem fileWrittenStep_filesLen (s : DownloadState) :
    (fileWrittenStep s).filesLen = s.filesLen := rfl

theorem fileWrittenStep_resolve (s : DownloadState) :
    (fileWrittenStep s).resolveCalls =
      s.resolveCalls +
        match s.filesLen with
        | some n => if n ≤ s.finishedStreamCount + 1 then 1 else 0
        | none => 0 := rfl

theorem runCompletions_filesLen (n k : Nat) :
    (runCompletions n k).filesLen = some n := by
  induction k with
  | zero => rfl
  | succ k ih => rw [runCompletions, fileWrittenStep_filesLen, ih]

/-- C1: for a manifest of `n ≥ 1` artifacts and `k ≤ n` completed downloads,
the finished counter equals `k` (one increment per completion), never
exceeds `n`, and `resolve` has been invoked exactly once if `k = n` and not
at all before that — the job resolves exactly once, precisely when the
counter reaches the manifest length. -/
theorem completion_barrier (n k : Nat) (hn : 1 ≤ n) (hk : k ≤ n) :
    (runCompletions n k).finishedStreamCount = k ∧
    (runCompletions n k).finishedStreamCount ≤ n ∧
    (runCompletions n k).resolveCalls = if k = n then 1 else 0 := by
  induction k with
  | zero =>
    refine ⟨rfl, Nat.zero_le n, ?_⟩
    have : ¬(0 = n) := by omega
    simp [runCompletions, initialDownloadState, this]
  | succ k ih =>
    have hk' : k ≤ n := Nat.le_of_succ_le hk
    obtain ⟨hc, _, hr⟩ := ih hk'
    have hkn : k ≠ n := by omega
    rw [if_neg hkn] at hr
    refine ⟨?_, ?_, ?_⟩
    · rw [runCompletions, fileWrittenStep_finished, hc]
    · rw [runCompletions, fileWrittenStep_finished, hc]
      exact hk
    · rw [runCompletions, fileWrittenStep_resolve, runCompletions_filesLen, hr, hc]
      by_cases h : k + 1 = n
      · simp [h]
      · have hn2 : ¬(n ≤ k + 1) := by omega
        simp [h, hn2]

/-- Witness for C1 at a manifest of two artifacts, both completed. -/
theorem completion_barrier_witness :
    1 ≤ 2 ∧ 2 ≤ 2 ∧
    ((runCompletions 2 2).finishedStreamCount = 2 ∧
      (runCompletions 2 2).finishedStreamCount ≤ 2 ∧
      (runCompletions 2 2).resolveCalls = if 2 = 2 then 1 else 0) :=
  ⟨by decide, by decide, completion_barrier 2 2 (by decide) (by decide)⟩

/-- The decoded manifest event listing zero artifacts. -/
def emptyManifestEvent : JsValue := .obj [("files", .arr [])]

/-- C10: a decoded manifest with zero artifacts destroys the status stream
and performs nothing else — no download is launched, and the handler emits
neither a resolution nor a rejection; moreover the completion counter model
with zero launched downloads never invokes `resolve`, so the job promise is
never resolved by the job logic and only transport-level events remain. -/
theorem empty_manifest_never_resolves :
    classifyEvent emptyManifestEvent = [.destroyStream] ∧
    countResolveActions (classifyEvent emptyManifestEvent) = 0 ∧
    countRejectActions (classifyEvent emptyManifestEvent) = 0 ∧
    countStartDownloads (classifyEvent emptyManifestEvent) = 0 ∧
    (runCompletions 0 0).resolveCalls = 0 :=
  ⟨rfl, rfl, rfl, rfl, rfl⟩

/-! ## Session lifecycle (`build`, source lines 63-87)

`build()` wraps the job in one promise.  The promise settles at most once
(first settlement wins); its single `finally` destroys the HTTP/2 session.
`client.once("close")` rejects only when the `handled` flag is still false;
the success path sets `handled` before resolving.  `stepSession` processes
the possible events against this promise state. -/

inductive JobEv where
  | resolveResult : JobEv
  | rejectErr : JobEv
  | closeEv : JobEv
  | timeoutEv : JobEv
deriving Repr, DecidableEq

structure SessionState where
  handled : Bool
  settled : Option Bool
  destroyCount : Nat
deriving Repr, DecidableEq

/-- Promise settlement: only the first resolution/rejection takes effect, and
it triggers the single `finally` (`this.client.destroy()`). -/
def settle (s : SessionState) (o : Bool) : SessionState :=
  match s.settled with
  | some _ => s
  | none => { s with settled := some o, destroyCount := s.destroyCount + 1 }

def stepSession (s : SessionState) : JobEv → SessionState
  | .resolveResult => settle { s with handled := true } true
  | .rejectErr => settle s false
  | .closeEv => if s.handled then s else settle s false
  | .timeoutEv => settle s false

def initialSession : SessionState :=
  { handled := false, settled := none, destroyCount := 0 }

def runSession (evs : List JobEv) : SessionState :=
  evs.foldl stepSession initialSession

def sessionInv (s : SessionState) : Prop :=
  s.destroyCount = if s.settled.isSome then 1 else 0

theorem settle_inv (s : SessionState) (o : Bool) (h : sessionInv s) :
    sessionInv (settle s o) := by
  unfold settle sessionInv at *
  cases hs : s.settled with
  | none =>
    rw [hs] at h
    simp at h
    simp [h]
  | some b => simpa [hs] using h

theorem stepSession_inv (s : SessionState) (e : JobEv) (h : sessionInv s) :
    sessionInv (stepSession s e) := by
  cases e with
  | resolveResult => exact settle_inv _ _ h
  | rejectErr => exact settle_inv _ _ h
  | closeEv =>
    unfold stepSession
    by_cases hh : s.handled
    · simpa [hh] using h
    · simpa [hh] using settle_inv s false h
  | timeoutEv => exact settle_inv _ _ h

theorem foldl_stepSession_inv (evs : List JobEv) :
    ∀ s : SessionState, sessionInv s → sessionInv (evs.foldl stepSession s) := by
  induction evs with
  | nil => intro s h; simpa using h
  | cons e rest ih =>
    intro s h
    simpa using ih (stepSession s e) (stepSession_inv s e h)

theorem stepSession_fixed (s : SessionState) (e : JobEv)
    (h1 : s.settled = some true) (h2 : s.handled = true) :
    stepSession s e = s := by
  obtain ⟨hd, st, dc⟩ := s
  simp only at h1 h2
  subst h1 h2
  cases e <;> simp [stepSession, settle]

theorem foldl_stepSession_fixed (evs : List JobEv) :
    ∀ s : SessionState, s.settled = some true → s.handled = true →
      evs.foldl stepSession s = s := by
  induction evs with
  | nil => intro s _ _; rfl
  | cons e rest ih =>
    intro s h1 h2
    simp only [List.foldl_cons, stepSession_fixed s e h1 h2]
    exact ih s h1 h2

/-- C4: for every sequence of promise events, the session is destroyed
exactly once when the job settles and never otherwise (so never twice, and
on every settling exit path — success, error, timeout — exactly once); and
when the success path runs first, any subsequent transport close/timeout or
late rejection leaves the recorded successful resolution and the single
teardown intact: the completion already recorded wins the race. -/
theorem session_destroyed_once_and_completion_wins :
    (∀ evs : List JobEv,
      (runSession evs).destroyCount = if (runSession evs).settled.isSome then 1 else 0) ∧
    (∀ evs : List JobEv,
      (runSession (JobEv.resolveResult :: evs)).settled = some true ∧
      (runSession (JobEv.resolveResult :: evs)).destroyCount = 1) := by
  constructor
  · intro evs
    exact foldl_stepSession_inv evs initialSession (by simp [sessionInv, initialSession])
  · intro evs
    have h0 : stepSession initialSession .resolveResult =
        { handled := true, settled := some true, destroyCount := 1 } := rfl
    have : runSession (JobEv.resolveResult :: evs) =
        { handled := true, settled := some true, destroyCount := 1 } := by
      unfold runSession
      rw [List.foldl_cons, h0]
      exact foldl_stepSession_fixed evs _ rfl rfl
    rw [this]
    exact ⟨rfl, rfl⟩

/-! ## Upload request ordering (`upload` / `uploadUnpackedAppArchive`,
source lines 93-106 and 278-313)

`upload` first opens the `/v1/upload` request stream and registers its error
handler; only then does `uploadUnpackedAppArchive` run its
build-resources-directory guard, which rejects with the configuration error
before reading the project-info file or spawning either external process.
The response-handler registration at the end of `upload` runs either way. -/

inductive UploadOp where
  | openStream : String → UploadOp
  | onStreamError : UploadOp
  | rejectConfigError : String → UploadOp
  | readProjectInfoFile : UploadOp
  | spawnTar : UploadOp
  | spawnZstd : UploadOp
  | onResponse : UploadOp
deriving Repr, DecidableEq

def configErrorMessage : String :=
  "Build resources dir equals to project dir and so, not sent to remote build agent. It will lead to incorrect results.\nPlease set \"directories.buildResources\" to separate dir or leave default (\"build\" directory in the project root)"

/-- The operations performed by `uploadUnpackedAppArchive`, in source
order. -/
def uploadUnpackedAppArchiveOps (buildResourcesDir projectDir : String) : List UploadOp :=
  if buildResourcesDir == projectDir then
    [.rejectConfigError configErrorMessage]
  else
    [.readProjectInfoFile, .spawnTar, .spawnZstd]

/-- The operations performed by `upload`, in source order. -/
def uploadOps (buildResourcesDir projectDir : String) : List UploadOp :=
  .openStream "/v1/upload" :: .onStreamError ::
    (uploadUnpackedAppArchiveOps buildResourcesDir projectDir ++ [.onResponse])

/-- C2 counterexample: with the build-resources directory equal to the
project root, the `/v1/upload` request stream *is* created — it is the very
first operation, before the configuration guard rejects — contradicting the
claim that no upload request stream is ever created in that case. -/
theorem upload_stream_opened_before_config_reject_counterexample :
    uploadOps "/proj" "/proj" =
      [.openStream "/v1/upload", .onStreamError,
        .rejectConfigError configErrorMessage, .onResponse] ∧
    UploadOp.openStream "/v1/upload" ∈ uploadOps "/proj" "/proj" :=
  ⟨rfl, by rw [uploadOps]; exact List.mem_cons_self _ _⟩

/-- C2 amended: when the build-resources directory equals the project root,
the job is rejected with the configuration error before the project-info
file is read, before either compression process is spawned, and before any
body bytes exist to upload — but only after the `/v1/upload` request stream
has already been opened and its error handler registered. -/
theorem config_error_rejects_before_any_upload_work (d : String) :
    uploadOps d d =
      [.openStream "/v1/upload", .onStreamError,
        .rejectConfigError configErrorMessage, .onResponse] := by
  simp [uploadOps, uploadUnpackedAppArchiveOps]

/-! ## Compression pipeline event handlers (`uploadUnpackedAppArchive`,
source lines 286-312)

The source registers exactly three handlers on the two spawned processes:
`tarProcess.stdout.on("error", reject)`, `zstdProcess.on("error", reject)`
and a log on `zstdProcess.stdout.on("end")`.  In Node, a failure to spawn
emits `"error"` on the ChildProcess object itself, while a non-zero exit
emits only `"exit"`/`"close"` with the exit code — no `"error"`. -/

inductive ProcEmitter where
  | tarProcess : ProcEmitter
  | tarStdout : ProcEmitter
  | zstdProcess : ProcEmitter
  | zstdStdout : ProcEmitter
deriving Repr, DecidableEq

inductive ProcReaction where
  | rejectUpload : ProcReaction
  | logUploadDone : ProcReaction
deriving Repr, DecidableEq

def pipelineHandlers : List (ProcEmitter × String × ProcReaction) :=
  [(.tarStdout, "error", .rejectUpload),
   (.zstdProcess, "error", .rejectUpload),
   (.zstdStdout, "end", .logUploadDone)]

/-- The reactions the pipeline performs when emitter `em` emits event
`ev`. -/
def reactionsFor (em : ProcEmitter) (ev : String) : List ProcReaction :=
  (pipelineHandlers.filter fun h => h.1 == em && h.2.1 == ev).map fun h => h.2.2

/-- C6 counterexample: a non-zero exit of either external compression
process (which Node reports via `"exit"`/`"close"`, not `"error"`) and a
spawn failure of the archive packer (an `"error"` on `tarProcess` itself,
whereas only `tarProcess.stdout` has an error handler) all produce no
reaction at all — no rejection propagates, contradicting the claim that any
such failure rejects the whole job. -/
theorem pipeline_exit_codes_unobserved_counterexample :
    reactionsFor .zstdProcess "exit" = [] ∧
    reactionsFor .zstdProcess "close" = [] ∧
    reactionsFor .tarProcess "exit" = [] ∧
    reactionsFor .tarProcess "close" = [] ∧
    reactionsFor .tarProcess "error" = [] :=
  ⟨rfl, rfl, rfl, rfl, rfl⟩

/-- C6 amended: of the external-process failure modes, exactly these reject
the job: a spawn failure of the block compressor (`"error"` on
`zstdProcess`) and a stream error on the archive packer's stdout; non-zero
exit codes of either process are never observed and a spawn failure of the
packer itself is unhandled, so neither rejects the job. -/
theorem pipeline_handler_coverage :
    reactionsFor .zstdProcess "error" = [.rejectUpload] ∧
    reactionsFor .tarStdout "error" = [.rejectUpload] ∧
    reactionsFor .tarProcess "error" = [] ∧
    reactionsFor .zstdProcess "exit" = [] ∧
    reactionsFor .tarProcess "exit" = [] ∧
    reactionsFor .zstdProcess "close" = [] ∧
    reactionsFor .tarProcess "close" = [] :=
  ⟨rfl, rfl, rfl, rfl, rfl, rfl, rfl⟩

/-! ## Compression level selection (`getZstdCompressionLevel`, source lines
316-322) -/

/-- JS `s.startsWith(p)`, computed on the underlying character lists. -/
def jsStartsWith (s p : String) : Bool :=
  p.data.isPrefixOf s.data

/-- The environment override `ELECTRON_BUILD_SERVICE_ZSTD_COMPRESSION` is
modelled as an `Option String` (`none` = variable not set). -/
def getZstdCompressionLevel (envOverride : Option String) (endpoint : String) : String :=
  match envOverride with
  | some result => result
  | none =>
    if jsStartsWith endpoint "https://127.0.0.1:" || jsStartsWith endpoint "https://localhost:"
        || jsStartsWith endpoint "[::1]:" then
      "3"
    else
      "19"

/-- Modelled from the spec: a "loopback/localhost endpoint" — an https build
service endpoint whose host is the IPv4 loopback address, the name
`localhost`, or the IPv6 loopback address. -/
def isLoopbackOrLocalhostEndpoint (endpoint : String) : Bool :=
  jsStartsWith endpoint "https://127.0.0.1:" || jsStartsWith endpoint "https://localhost:"
    || jsStartsWith endpoint "https://[::1]:"

/-- C8 counterexample: the https IPv6-loopback endpoint gets the high level
"19", although it is a loopback endpoint — the code's third prefix test is
`"[::1]:"` without a scheme, which no https URL matches — contradicting the
claim that every loopback endpoint gets the low level. -/
theorem compression_level_ipv6_loopback_counterexample :
    isLoopbackOrLocalhostEndpoint "https://[::1]:8443" = true ∧
    getZstdCompressionLevel none "https://[::1]:8443" = "19" ∧
    getZstdCompressionLevel none "https://[::1]:8443" ≠ "3" := by
  refine ⟨by decide, by decide, by decide⟩

/-- C8 amended: with no override, the level is "3" exactly when the endpoint
starts with one of the literal prefixes `https://127.0.0.1:`,
`https://localhost:` or `[::1]:` (so an https IPv6-loopback endpoint gets
"19"), and "19" otherwise; when the override is set, its value is returned
regardless of the endpoint. -/
theorem compression_level_choice :
    (∀ (v : String) (e : String), getZstdCompressionLevel (some v) e = v) ∧
    (∀ e : String, getZstdCompressionLevel none e = "3" ∨
      getZstdCompressionLevel none e = "19") ∧
    (∀ e : String, getZstdCompressionLevel none e = "3" ↔
      (jsStartsWith e "https://127.0.0.1:" || jsStartsWith e "https://localhost:"
        || jsStartsWith e "[::1]:") = true) := by
  refine ⟨fun v e => rfl, fun e => ?_, fun e => ?_⟩
  · unfold getZstdCompressionLevel
    by_cases h : (jsStartsWith e "https://127.0.0.1:" || jsStartsWith e "https://localhost:"
        || jsStartsWith e "[::1]:") = true
    · left; rw [if_pos h]
    · right; rw [if_neg h]
  · unfold getZstdCompressionLevel
    by_cases h : (jsStartsWith e "https://127.0.0.1:" || jsStartsWith e "https://localhost:"
        || jsStartsWith e "[::1]:") = true
    · rw [if_pos h]
      exact ⟨fun _ => h, fun _ => rfl⟩
    · rw [if_neg h]
      exact ⟨fun hc => absurd hc (by decide), fun hc => absurd hc h⟩

/-! ## Artifact persistence (`downloadFile` response handler, source lines
232-263)

A response whose artifact name ends in `.yml` or `.json` is buffered: the
chunks are concatenated (a single chunk is taken as-is), stored into
`artifactCreatedEvent.fileContent`, written with `outputFile`, and then
`fileWritten` runs once.  Any other artifact is piped straight into a local
write stream and `fileWritten` runs once on its close; no content is
captured on the event. -/

/-- JS `s.endsWith(p)`, computed on the underlying character lists. -/
def jsEndsWith (s p : String) : Bool :=
  p.data.isSuffixOf s.data

/-- `path.join(this.outDir, artifact.file)` for plain file names. -/
def pathJoin (a b : String) : String :=
  a ++ "/" ++ b

/-- `buffers.length === 1 ? buffers[0] : Buffer.concat(buffers)` -/
def joinChunks (chunks : List (List Nat)) : List Nat :=
  match chunks with
  | [c] => c
  | _ => chunks.flatten

inductive DownloadWrite where
  | bufferedWrite : String → List Nat → DownloadWrite
  | streamWrite : String → DownloadWrite
deriving Repr, DecidableEq

structure ArtifactDownloadResult where
  fileContent : Option (List Nat)
  write : DownloadWrite
  fileWrittenCalls : Nat
deriving Repr, DecidableEq

/-- The successful-download behaviour of `downloadFile` for an artifact
named `file`, given the body chunks received. -/
def handleDownloadResponse (outDir file : String) (chunks : List (List Nat)) :
    ArtifactDownloadResult :=
  let localFile := pathJoin outDir file
  if jsEndsWith file ".yml" || jsEndsWith file ".json" then
    let fileContent := joinChunks chunks
    { fileContent := some fileContent
      write := .bufferedWrite localFile fileContent
      fileWrittenCalls := 1 }
  else
    { fileContent := none
      write := .streamWrite localFile
      fileWrittenCalls := 1 }

theorem joinChunks_eq_join (chunks : List (List Nat)) :
    joinChunks chunks = chunks.flatten := by
  match chunks with
  | [] => rfl
  | [c] => simp [joinChunks]
  | c1 :: c2 :: rest => rfl

/-- C9: an artifact whose name ends in a metadata extension (`.yml` or
`.json`) is buffered in full, persisted via a buffered write, and its
record carries the captured byte content; any other artifact is streamed to
a local file and its record carries no content; in both cases `fileWritten`
runs once, and each `fileWritten` call increments the shared completion
counter by exactly one. -/
theorem metadata_buffered_binary_streamed
    (name outDir : String) (chunks : List (List Nat)) (s : DownloadState) :
    ((jsEndsWith name ".yml" || jsEndsWith name ".json") = true →
      handleDownloadResponse outDir name chunks =
        { fileContent := some (joinChunks chunks)
          write := .bufferedWrite (pathJoin outDir name) (joinChunks chunks)
          fileWrittenCalls := 1 }) ∧
    ((jsEndsWith name ".yml" || jsEndsWith name ".json") = false →
      handleDownloadResponse outDir name chunks =
        { fileContent := none
          write := .streamWrite (pathJoin outDir name)
          fileWrittenCalls := 1 }) ∧
    (fileWrittenStep s).finishedStreamCount = s.finishedStreamCount + 1 := by
  refine ⟨fun h => ?_, fun h => ?_, rfl⟩
  · unfold handleDownloadResponse
    rw [if_pos h]
  · unfold handleDownloadResponse
    rw [if_neg (by simp [h])]

/-- Witness for C9 at the two artifacts of the spec's scenario. -/
theorem metadata_buffered_binary_streamed_witness :
    ((jsEndsWith "latest.yml" ".yml" || jsEndsWith "latest.yml" ".json") = true ∧
      handleDownloadResponse "out" "latest.yml" [[108, 97]] =
        { fileContent := some (joinChunks [[108, 97]])
          write := .bufferedWrite (pathJoin "out" "latest.yml") (joinChunks [[108, 97]])
          fileWrittenCalls := 1 }) ∧
    ((jsEndsWith "app.exe" ".yml" || jsEndsWith "app.exe" ".json") = false ∧
      handleDownloadResponse "out" "app.exe" [[77, 90]] =
        { fileContent := none
          write := .streamWrite (pathJoin "out" "app.exe")
          fileWrittenCalls := 1 }) ∧
    (fileWrittenStep (initialDownloadState 2)).finishedStreamCount =
      (initialDownloadState 2).finishedStreamCount + 1 :=
  ⟨⟨by decide, (metadata_buffered_binary_streamed "latest.yml" "out" [[108, 97]]
      (initialDownloadState 2)).1 (by decide)⟩,
    ⟨by decide, (metadata_buffered_binary_streamed "app.exe" "out" [[77, 90]]
      (initialDownloadState 2)).2.1 (by decide)⟩,
    (metadata_buffered_binary_streamed "app.exe" "out" [[77, 90]]
      (initialDownloadState 2)).2.2⟩

/-! ## Download path building (`downloadFile`, source lines 206-212)

The request path is `"/v1/download" + new URL("f:" + "/" + id + "/" +
artifact.file).pathname`.  The WHATWG URL parser first preprocesses its
input: it removes any leading and trailing C0 control or space (the leading
side can only touch the `f` of the scheme here, so only the *end* of the
file name is affected), and then removes every ASCII tab, LF and CR from
the whole input.  For a job id and file name free of `/ ? # %` and
backslash (and not a dot segment), the parser then yields the pathname
`"/" ++ enc id ++ "/" ++ enc file` over the *preprocessed* segments, where
`enc` percent-encodes, per UTF-8 byte, every character of the path
percent-encode set (C0 controls, all code points above U+007E, and space
`"` `#` `<` `>` `?` `` ` `` and the two curly brackets).  We model strings
as their character lists. -/

def utf8EncodeChar (c : Char) : List Nat :=
  let n := c.toNat
  if n < 128 then [n]
  else if n < 2048 then [192 + n / 64, 128 + n % 64]
  else if n < 65536 then [224 + n / 4096, 128 + n / 64 % 64, 128 + n % 64]
  else [240 + n / 262144, 128 + n / 4096 % 64, 128 + n / 64 % 64, 128 + n % 64]

def utf8Bytes (s : List Char) : List Nat :=
  s.flatMap utf8EncodeChar

def hexDigitUpper (n : Nat) : Char :=
  match n with
  | 0 => '0' | 1 => '1' | 2 => '2' | 3 => '3' | 4 => '4'
  | 5 => '5' | 6 => '6' | 7 => '7' | 8 => '8' | 9 => '9'
  | 10 => 'A' | 11 => 'B' | 12 => 'C' | 13 => 'D' | 14 => 'E'
  | _ => 'F'

def percentEncodeByte (b : Nat) : List Char :=
  ['%', hexDigitUpper (b / 16), hexDigitUpper (b % 16)]

/-- The WHATWG path percent-encode set. -/
def inPathPercentEncodeSet (c : Char) : Prop :=
  c.toNat ≤ 31 ∨ 127 ≤ c.toNat ∨ c.toNat = 32 ∨ c.toNat = 34 ∨ c.toNat = 60 ∨
    c.toNat = 62 ∨ c.toNat = 96 ∨ c.toNat = 63 ∨ c.toNat = 35 ∨ c.toNat = 123 ∨
    c.toNat = 125

instance (c : Char) : Decidable (inPathPercentEncodeSet c) := by
  unfold inPathPercentEncodeSet
  infer_instance

def encodeChar (c : Char) : List Char :=
  if inPathPercentEncodeSet c then (utf8EncodeChar c).flatMap percentEncodeByte
  else [c]

/-- One URL path segment as serialized by the WHATWG parser. -/
def encodeSegment (s : List Char) : List Char :=
  s.flatMap encodeChar

/-- WHATWG URL input preprocessing, step 2: remove every ASCII tab (U+0009),
LF (U+000A) and CR (U+000D) from the input. -/
def stripTabNewline (s : List Char) : List Char :=
  s.filter fun c => !(c.toNat == 9 || c.toNat == 10 || c.toNat == 13)

/-- WHATWG URL input preprocessing, step 1, restricted to the end of the
input: remove trailing C0 controls and spaces (code points ≤ U+0020).  (The
leading side of the trim can only ever touch the scheme letter `f` here.) -/
def trimTrailingC0Space (s : List Char) : List Char :=
  (s.reverse.dropWhile fun c => c.toNat ≤ 32).reverse

/-- The download request path of `downloadFile`: the URL parser trims
trailing C0/space (which ends the whole input, i.e. ends the file name),
removes tab/LF/CR everywhere, and then serializes the two path segments. -/
def downloadPathChars (id file : List Char) : List Char :=
  "/v1/download/".data ++ encodeSegment (stripTabNewline id) ++
    '/' :: encodeSegment (stripTabNewline (trimTrailingC0Space file))

abbrev isHexByte (b : Nat) : Prop :=
  (48 ≤ b ∧ b ≤ 57) ∨ (65 ≤ b ∧ b ≤ 70) ∨ (97 ≤ b ∧ b ≤ 102)

def hexByteVal (b : Nat) : Nat :=
  if 48 ≤ b ∧ b ≤ 57 then b - 48
  else if 65 ≤ b ∧ b ≤ 70 then b - 55
  else if 97 ≤ b ∧ b ≤ 102 then b - 87
  else 0

/-- Do the next two bytes form a valid hex-escape pair? -/
def isHexPair : List Nat → Bool
  | h :: l :: _ => decide (isHexByte h) && decide (isHexByte l)
  | _ => false

/-- WHATWG percent-decode on bytes: a `%` followed by two hex digits decodes
to one byte; anything else passes through unchanged. -/
def percentDecodeBytes : List Nat → List Nat
  | [] => []
  | b :: rest =>
    if b = 37 ∧ isHexPair rest = true then
      match rest with
      | h :: l :: rest2 => (16 * hexByteVal h + hexByteVal l) :: percentDecodeBytes rest2
      | _ => []
    else b :: percentDecodeBytes rest

abbrev isCont (b : Nat) : Prop := 128 ≤ b ∧ b < 192

/-- Decode the continuation byte of a two-byte UTF-8 sequence. -/
def utf8DecodeOne2 (b0 : Nat) : List Nat → Option (Nat × List Nat)
  | b1 :: rest1 =>
    if isCont b1 then some ((b0 - 192) * 64 + (b1 - 128), rest1) else none
  | _ => none

/-- Decode the continuation bytes of a three-byte UTF-8 sequence. -/
def utf8DecodeOne3 (b0 : Nat) : List Nat → Option (Nat × List Nat)
  | b1 :: b2 :: rest2 =>
    if isCont b1 ∧ isCont b2 then
      some ((b0 - 224) * 4096 + (b1 - 128) * 64 + (b2 - 128), rest2)
    else none
  | _ => none

/-- Decode the continuation bytes of a four-byte UTF-8 sequence. -/
def utf8DecodeOne4 (b0 : Nat) : List Nat → Option (Nat × List Nat)
  | b1 :: b2 :: b3 :: rest3 =>
    if isCont b1 ∧ isCont b2 ∧ isCont b3 then
      some ((b0 - 240) * 262144 + (b1 - 128) * 4096 + (b2 - 128) * 64 + (b3 - 128), rest3)
    else none
  | _ => none

/-- Decode one UTF-8 code point from the front of a byte list. -/
def utf8DecodeOne : List Nat → Option (Nat × List Nat)
  | [] => none
  | b0 :: rest =>
    if b0 < 128 then some (b0, rest)
    else if b0 < 194 then none
    else if b0 < 224 then utf8DecodeOne2 b0 rest
    else if b0 < 240 then utf8DecodeOne3 b0 rest
    else if b0 < 245 then utf8DecodeOne4 b0 rest
    else none

/-- Fuelled driver for UTF-8 decoding of a whole byte list. -/
def utf8DecodeAux : Nat → List Nat → Option (List Char)
  | _, [] => some []
  | 0, _ :: _ => none
  | fuel + 1, b0 :: rest =>
    match utf8DecodeOne (b0 :: rest) with
    | some (n, rest2) => (utf8DecodeAux fuel rest2).map fun cs => Char.ofNat n :: cs
    | none => none

/-- Strict UTF-8 decoding of a byte list. -/
def utf8Decode (bs : List Nat) : Option (List Char) :=
  utf8DecodeAux bs.length bs

/-- Percent-decode a string (given as characters): UTF-8 encode, decode the
percent escapes bytewise, UTF-8 decode. -/
def percentDecodeString (s : List Char) : Option (List Char) :=
  utf8Decode (percentDecodeBytes (utf8Bytes s))

/-- Characters for which a path segment survives the URL parser unchanged
and the round trip is well defined: anything except `%`, `/`, `?`, `#`,
backslash, and the tab/LF/CR characters the parser deletes. -/
def goodSegmentChar (c : Char) : Prop :=
  c.toNat ≠ 37 ∧ c.toNat ≠ 47 ∧ c.toNat ≠ 63 ∧ c.toNat ≠ 35 ∧ c.toNat ≠ 92 ∧
    c.toNat ≠ 9 ∧ c.toNat ≠ 10 ∧ c.toNat ≠ 13

/-- The last character of a URL input must not be a C0 control or space, or
the parser trims it away; the empty list trivially qualifies. -/
abbrev lastCharOk (s : List Char) : Prop :=
  32 < (s.getLastD 'x').toNat

instance (c : Char) : Decidable (goodSegmentChar c) := by
  unfold goodSegmentChar
  infer_instance

theorem charToNat_lt (c : Char) : c.toNat < 1114112 := by
  rcases c.valid with h | h
  · exact Nat.lt_trans h (by decide)
  · exact h.2

theorem utf8EncodeChar_lt (c : Char) : ∀ b ∈ utf8EncodeChar c, b < 256 := by
  have hv := charToNat_lt c
  intro b hb
  unfold utf8EncodeChar at hb
  by_cases h1 : c.toNat < 128
  · rw [if_pos h1] at hb
    simp only [List.mem_singleton] at hb
    omega
  · rw [if_neg h1] at hb
    by_cases h2 : c.toNat < 2048
    · rw [if_pos h2] at hb
      simp only [List.mem_cons, List.not_mem_nil, or_false] at hb
      rcases hb with hb | hb <;> omega
    · rw [if_neg h2] at hb
      by_cases h3 : c.toNat < 65536
      · rw [if_pos h3] at hb
        simp only [List.mem_cons, List.not_mem_nil, or_false] at hb
        rcases hb with hb | hb | hb <;> omega
      · rw [if_neg h3] at hb
        simp only [List.mem_cons, List.not_mem_nil, or_false] at hb
        rcases hb with hb | hb | hb | hb <;> omega

theorem utf8EncodeChar_ascii (c : Char) (h : c.toNat < 128) :
    utf8EncodeChar c = [c.toNat] := by
  unfold utf8EncodeChar
  rw [if_pos h]

theorem utf8Bytes_append (a b : List Char) :
    utf8Bytes (a ++ b) = utf8Bytes a ++ utf8Bytes b := by
  unfold utf8Bytes
  exact List.flatMap_append a b utf8EncodeChar

theorem utf8Bytes_cons (c : Char) (s : List Char) :
    utf8Bytes (c :: s) = utf8EncodeChar c ++ utf8Bytes s := rfl

theorem hexDigitUpper_spec : ∀ n < 16,
    isHexByte (hexDigitUpper n).toNat ∧ hexByteVal (hexDigitUpper n).toNat = n ∧
    (hexDigitUpper n).toNat < 128 ∧ (hexDigitUpper n).toNat ≠ 37 := by decide

theorem percentDecodeBytes_cons_ne (b : Nat) (hb : b ≠ 37) (rest : List Nat) :
    percentDecodeBytes (b :: rest) = b :: percentDecodeBytes rest := by
  match rest with
  | [] => simp [percentDecodeBytes, hb]
  | [h] => simp [percentDecodeBytes, hb]
  | h :: l :: t => simp [percentDecodeBytes, hb]

theorem percentDecodeBytes_pct (h l : Nat) (hh : isHexByte h) (hl : isHexByte l)
    (rest : List Nat) :
    percentDecodeBytes (37 :: h :: l :: rest) =
      (16 * hexByteVal h + hexByteVal l) :: percentDecodeBytes rest := by
  rw [percentDecodeBytes, if_pos]
  exact ⟨rfl, by simp [isHexPair, hh, hl]⟩

theorem percentDecodeBytes_nopct (bs : List Nat) (h : ∀ b ∈ bs, b ≠ 37)
    (rest : List Nat) :
    percentDecodeBytes (bs ++ rest) = bs ++ percentDecodeBytes rest := by
  induction bs with
  | nil => rfl
  | cons b bs ih =>
    rw [List.cons_append, percentDecodeBytes_cons_ne b (h b (List.mem_cons_self b bs)),
      ih (fun x hx => h x (List.mem_cons_of_mem b hx)), List.cons_append]

theorem percentDecode_encodedByte (b : Nat) (hb : b < 256) (rest : List Nat) :
    percentDecodeBytes (utf8Bytes (percentEncodeByte b) ++ rest) =
      b :: percentDecodeBytes rest := by
  have s1 := hexDigitUpper_spec (b / 16) (by omega)
  have s2 := hexDigitUpper_spec (b % 16) (by omega)
  have e : utf8Bytes (percentEncodeByte b) =
      [37, (hexDigitUpper (b / 16)).toNat, (hexDigitUpper (b % 16)).toNat] := by
    show utf8EncodeChar '%' ++ (utf8EncodeChar (hexDigitUpper (b / 16)) ++
      (utf8EncodeChar (hexDigitUpper (b % 16)) ++ [])) = _
    rw [utf8EncodeChar_ascii _ s1.2.2.1, utf8EncodeChar_ascii _ s2.2.2.1]
    rfl
  rw [e]
  rw [show ([37, (hexDigitUpper (b / 16)).toNat, (hexDigitUpper (b % 16)).toNat] ++ rest) =
    37 :: (hexDigitUpper (b / 16)).toNat :: (hexDigitUpper (b % 16)).toNat :: rest from rfl]
  rw [percentDecodeBytes_pct _ _ s1.1 s2.1, s1.2.1, s2.2.1]
  congr 1
  omega

theorem percentDecode_encodedBytes (bs : List Nat) (h : ∀ b ∈ bs, b < 256)
    (rest : List Nat) :
    percentDecodeBytes (utf8Bytes (bs.flatMap percentEncodeByte) ++ rest) =
      bs ++ percentDecodeBytes rest := by
  induction bs with
  | nil => rfl
  | cons b bs ih =>
    rw [List.flatMap_cons, utf8Bytes_append, List.append_assoc,
      percentDecode_encodedByte b (h b (List.mem_cons_self b bs)),
      ih (fun x hx => h x (List.mem_cons_of_mem b hx)), List.cons_append]

theorem percentDecode_encodeChar (c : Char) (hc : goodSegmentChar c) (rest : List Nat) :
    percentDecodeBytes (utf8Bytes (encodeChar c) ++ rest) =
      utf8EncodeChar c ++ percentDecodeBytes rest := by
  unfold encodeChar
  by_cases h : inPathPercentEncodeSet c
  · rw [if_pos h]
    exact percentDecode_encodedBytes (utf8EncodeChar c) (utf8EncodeChar_lt c) rest
  · rw [if_neg h]
    unfold inPathPercentEncodeSet at h
    push_neg at h
    have hascii : c.toNat < 128 := by omega
    have e : utf8Bytes [c] = [c.toNat] := by
      rw [utf8Bytes_cons, utf8EncodeChar_ascii c hascii]
      rfl
    rw [e, utf8EncodeChar_ascii c hascii, List.cons_append, List.nil_append,
      percentDecodeBytes_cons_ne c.toNat hc.1 rest]
    rfl

theorem percentDecode_encodeSegment (s : List Char) (hs : ∀ c ∈ s, goodSegmentChar c)
    (rest : List Nat) :
    percentDecodeBytes (utf8Bytes (encodeSegment s) ++ rest) =
      utf8Bytes s ++ percentDecodeBytes rest := by
  induction s with
  | nil => rfl
  | cons c s ih =>
    unfold encodeSegment
    rw [List.flatMap_cons, utf8Bytes_append, List.append_assoc,
      percentDecode_encodeChar c (hs c (List.mem_cons_self c s))]
    unfold encodeSegment at ih
    rw [ih (fun x hx => hs x (List.mem_cons_of_mem c hx)), utf8Bytes_cons,
      List.append_assoc]

theorem utf8EncodeChar_length_pos (c : Char) : 0 < (utf8EncodeChar c).length := by
  unfold utf8EncodeChar
  by_cases h1 : c.toNat < 128
  · rw [if_pos h1]; simp
  · rw [if_neg h1]
    by_cases h2 : c.toNat < 2048
    · rw [if_pos h2]; simp
    · rw [if_neg h2]
      by_cases h3 : c.toNat < 65536
      · rw [if_pos h3]; simp
      · rw [if_neg h3]; simp

theorem utf8DecodeOne_encodeChar (c : Char) (rest : List Nat) :
    utf8DecodeOne (utf8EncodeChar c ++ rest) = some (c.toNat, rest) := by
  have hv := charToNat_lt c
  unfold utf8EncodeChar
  by_cases h1 : c.toNat < 128
  · rw [if_pos h1]
    simp only [List.cons_append, List.nil_append]
    simp [utf8DecodeOne, h1]
  · rw [if_neg h1]
    by_cases h2 : c.toNat < 2048
    · rw [if_pos h2]
      simp only [List.cons_append, List.nil_append]
      have ha : ¬(192 + c.toNat / 64 < 128) := by omega
      have hb : ¬(192 + c.toNat / 64 < 194) := by omega
      have hc : 192 + c.toNat / 64 < 224 := by omega
      have hcont : isCont (128 + c.toNat % 64) := by
        constructor <;> omega
      simp [utf8DecodeOne, utf8DecodeOne2, ha, hb, hc, hcont]
      omega
    · by_cases h3 : c.toNat < 65536
      · rw [if_neg h2, if_pos h3]
        simp only [List.cons_append, List.nil_append]
        have ha : ¬(224 + c.toNat / 4096 < 128) := by omega
        have hb : ¬(224 + c.toNat / 4096 < 194) := by omega
        have hc : ¬(224 + c.toNat / 4096 < 224) := by omega
        have hd : 224 + c.toNat / 4096 < 240 := by omega
        have hcont1 : isCont (128 + c.toNat / 64 % 64) := by
          constructor <;> omega
        have hcont2 : isCont (128 + c.toNat % 64) := by
          constructor <;> omega
        simp [utf8DecodeOne, utf8DecodeOne3, ha, hb, hc, hd, hcont1, hcont2]
        omega
      · rw [if_neg h2, if_neg h3]
        simp only [List.cons_append, List.nil_append]
        have ha : ¬(240 + c.toNat / 262144 < 128) := by omega
        have hb : ¬(240 + c.toNat / 262144 < 194) := by omega
        have hc : ¬(240 + c.toNat / 262144 < 224) := by omega
        have hd : ¬(240 + c.toNat / 262144 < 240) := by omega
        have he : 240 + c.toNat / 262144 < 245 := by omega
        have hcont1 : isCont (128 + c.toNat / 4096 % 64) := by
          constructor <;> omega
        have hcont2 : isCont (128 + c.toNat / 64 % 64) := by
          constructor <;> omega
        have hcont3 : isCont (128 + c.toNat % 64) := by
          constructor <;> omega
        simp [utf8DecodeOne, utf8DecodeOne4, ha, hb, hc, hd, he, hcont1, hcont2, hcont3]
        omega

theorem utf8DecodeAux_bytes (s : List Char) :
    ∀ fuel : Nat, (utf8Bytes s).length ≤ fuel →
      utf8DecodeAux fuel (utf8Bytes s) = some s := by
  induction s with
  | nil =>
    intro fuel _
    cases fuel <;> rfl
  | cons c s ih =>
    intro fuel hf
    rw [utf8Bytes_cons] at hf ⊢
    have hk := utf8EncodeChar_length_pos c
    rw [List.length_append] at hf
    match fuel, hf with
    | 0, hf => omega
    | f + 1, hf =>
      match he : utf8EncodeChar c with
      | [] => rw [he] at hk; simp at hk
      | b0 :: bs =>
        rw [List.cons_append, utf8DecodeAux]
        have hone : utf8DecodeOne (b0 :: (bs ++ utf8Bytes s)) = some (c.toNat, utf8Bytes s) := by
          rw [← List.cons_append, ← he]
          exact utf8DecodeOne_encodeChar c (utf8Bytes s)
        rw [hone]
        have hfs : (utf8Bytes s).length ≤ f := by
          rw [he] at hf
          simp only [List.length_cons] at hf
          omega
        show (utf8DecodeAux f (utf8Bytes s)).map (fun cs => Char.ofNat c.toNat :: cs) =
          some (c :: s)
        rw [ih f hfs, Char.ofNat_toNat]
        rfl

theorem utf8Decode_utf8Bytes (s : List Char) : utf8Decode (utf8Bytes s) = some s :=
  utf8DecodeAux_bytes s (utf8Bytes s).length (le_refl _)

theorem stripTabNewline_eq_self (s : List Char) (hs : ∀ c ∈ s, goodSegmentChar c) :
    stripTabNewline s = s := by
  apply List.filter_eq_self.mpr
  intro c hc
  obtain ⟨_, _, _, _, _, h9, h10, h13⟩ := hs c hc
  simp [h9, h10, h13]

theorem trimTrailingC0Space_eq_self (s : List Char) (h : lastCharOk s) :
    trimTrailingC0Space s = s := by
  unfold trimTrailingC0Space
  match hrev : s.reverse with
  | [] =>
    have : s = [] := by simpa using congrArg List.reverse hrev
    simp [this]
  | c :: t =>
    have hlast : s.getLastD 'x' = c := by
      rw [List.getLastD_eq_getLast?, ← List.head?_reverse, hrev]
      rfl
    have hc : ¬(c.toNat ≤ 32) := by
      have h' : 32 < (s.getLastD 'x').toNat := h
      rw [hlast] at h'
      omega
    rw [List.dropWhile_cons, if_neg (by simpa using hc), ← hrev, List.reverse_reverse]

